import Mathlib

/-!
Verification development for the music-downloader repository.

Embedded components:
* the candidate scoring engine of `src/debug_ytmusic_scoring.py`
  (text normalisation, per-signal scores, combination, sorting);
* the job orchestration of `src/backend/app.py`
  (track download status trace, album aggregation, file retrieval endpoint,
  temp-file cleanup policy).

Modelling conventions:
* Python float arithmetic is modelled exactly over `ℚ`; `round(x, 3)` is
  modelled as round-half-to-even at three decimals over `ℚ`.
* Python strings are modelled as `String` / `List Char`; `str.lower`,
  `str.strip`, `str.replace`, `in`, `re.split`, and the two concrete
  regular expressions of `normalize_text` are implemented directly.
  The `\w` class of the `feat` regular expression is modelled as
  ASCII-alphanumeric-or-underscore; no claim exercises non-ASCII word
  characters adjacent to a feat token.
* `difflib.SequenceMatcher.ratio` (an external standard-library call) is a
  parameter `sim` of the scoring functions; a faithful executable model
  `difflibSimilarity` of it (for inputs below the autojunk threshold of 200
  characters, which covers every use here) is provided for concrete runs.
* `math.exp` is a parameter `rexp` of `rank_prior`; concrete runs only ever
  evaluate it at `0`, where `math.exp 0 = 1` exactly.
-/

set_option maxRecDepth 40000

namespace MusicDL

/-! ## Python string primitives -/

/-- Python whitespace for `str.strip` / `\s` (space, tab, LF, CR, VT, FF). -/
def isWsChar (c : Char) : Bool :=
  c = ' ' || c = '\t' || c = '\n' || c = '\r' || c = Char.ofNat 11 || c = Char.ofNat 12

/-- `str.lower`, ASCII-oriented model. -/
def lowerChars (s : List Char) : List Char := s.map Char.toLower

/-- `str.strip` with no argument: drop whitespace on both ends. -/
def stripChars (s : List Char) : List Char :=
  ((s.dropWhile isWsChar).reverse.dropWhile isWsChar).reverse

/-- `str.replace pat rep`, left-to-right, non-overlapping (nonempty `pat`).
Fueled recursion; the initial fuel `s.length + 1` always suffices. -/
def replaceSubGo (pat rep : List Char) : Nat → List Char → List Char
  | 0, s => s
  | _, [] => []
  | fuel + 1, c :: rest =>
    if pat.isPrefixOf (c :: rest) then
      rep ++ replaceSubGo pat rep fuel ((c :: rest).drop pat.length)
    else
      c :: replaceSubGo pat rep fuel rest

def replaceSub (pat rep s : List Char) : List Char :=
  replaceSubGo pat rep (s.length + 1) s

/-- Python `pat in s` substring test. -/
def containsSub (pat s : List Char) : Bool :=
  (List.range (s.length + 1)).any (fun i => pat.isPrefixOf (s.drop i))

/-- `re.split (backslash-s-plus)`: split on maximal whitespace runs, keeping
empty pieces at the ends exactly as `re.split` does. -/
def splitWsGo : Nat → List Char → List Char → List (List Char)
  | 0, acc, _ => [acc.reverse]
  | _, acc, [] => [acc.reverse]
  | fuel + 1, acc, c :: rest =>
    if isWsChar c then
      acc.reverse :: splitWsGo fuel [] (rest.dropWhile isWsChar)
    else
      splitWsGo fuel (c :: acc) rest

def splitWsRuns (s : List Char) : List (List Char) := splitWsGo (s.length + 1) [] s

/-- `re.sub (backslash-s-plus) " " s`: collapse each whitespace run to one space. -/
def collapseWsGo : Nat → List Char → List Char
  | 0, s => s
  | _, [] => []
  | fuel + 1, c :: rest =>
    if isWsChar c then ' ' :: collapseWsGo fuel (rest.dropWhile isWsChar)
    else c :: collapseWsGo fuel rest

def collapseWs (s : List Char) : List Char := collapseWsGo (s.length + 1) s

def digitsValGo : List Char → Nat → Option Nat
  | [], acc => some acc
  | c :: rest, acc =>
    if c.isDigit then digitsValGo rest (acc * 10 + (c.toNat - 48)) else none

/-- Python `int(s)`: surrounding whitespace, optional sign, decimal digits.
(Underscore digit grouping and non-ASCII digits are not modelled; no input
here uses them.) -/
def pyInt (s : List Char) : Option Int :=
  match stripChars s with
  | '+' :: ds => if ds = [] then none else (digitsValGo ds 0).map (fun n => (n : Int))
  | '-' :: ds => if ds = [] then none else (digitsValGo ds 0).map (fun n => -(n : Int))
  | ds => if ds = [] then none else (digitsValGo ds 0).map (fun n => (n : Int))

/-! ## Rounding and clamping -/

/-- Round-half-to-even to an integer, the idealised model of Python `round`. -/
def roundHalfEven (q : ℚ) : ℤ :=
  let f := ⌊q⌋
  let r := q - (f : ℚ)
  if r < 1 / 2 then f
  else if 1 / 2 < r then f + 1
  else if f % 2 = 0 then f else f + 1

/-- Python `round(q, 3)`. -/
def round3 (q : ℚ) : ℚ := ((roundHalfEven (q * 1000) : ℤ) : ℚ) / 1000

/-- `max(0.0, min(q, 1.0))`. -/
def clamp01 (q : ℚ) : ℚ := max 0 (min q 1)

/-! ## Text normalizer (`normalize_text`, `tokens`) -/

/-- The `meta_tokens` list of `normalize_text`, in source order. -/
def metaTokens : List String :=
  [("official audio"), ("official video"), ("official music video"),
   ("lyrics"), ("lyric video"), ("audio"), ("mv"), ("hd"), ("4k"),
   ("official"), ("music video")]

/-- Alternatives of the bracketed-meta regular expressions, in source order. -/
def bracketAlts : List (List Char) :=
  [("official").data, ("mv").data, ("music video").data, ("lyrics").data,
   ("lyric video").data, ("audio").data, ("hd").data, ("4k").data]

/-- One pass of `re.sub` for the pattern `open(alt1|...|altN)[^close]*close`,
replacing each match with a single space and continuing after it. -/
def subBracketGo (openC closeC : Char) (alts : List (List Char)) :
    Nat → List Char → List Char
  | 0, s => s
  | _, [] => []
  | fuel + 1, c :: rest =>
    if (c = openC ∧ (alts.any (fun a => a.isPrefixOf rest)) = true ∧
        (rest.any (fun d => d = closeC)) = true) then
      ' ' :: subBracketGo openC closeC alts fuel ((rest.dropWhile (fun d => d ≠ closeC)).tail)
    else
      c :: subBracketGo openC closeC alts fuel rest

def subBracket (openC closeC : Char) (alts : List (List Char)) (s : List Char) :
    List Char :=
  subBracketGo openC closeC alts (s.length + 1) s

/-- `\w` of the Python regex, ASCII model. -/
def isWordChar (c : Char) : Bool := c.isAlphanum || c = '_'

/-- Alternatives of the feat regular expression in source order:
`feat\.`, `feat`, `ft\.`, `ft`. -/
def featAlts : List (List Char) :=
  [("feat.").data, ("feat").data, ("ft.").data, ("ft").data]

/-- Word-boundary check after a matched alternative: the last matched char
and the following char must differ in wordness (end of string is non-word). -/
def altEndOk (alt s : List Char) : Bool :=
  let lastW :=
    match alt.getLast? with
    | some d => isWordChar d
    | none => false
  let nextW :=
    match s.drop alt.length with
    | [] => false
    | d :: _ => isWordChar d
  lastW != nextW

/-- At a position whose previous original char is `prev`, return the first
alternative that matches with both word boundaries satisfied. All
alternatives start with a word character, so the leading boundary holds iff
`prev` is absent or not a word character. -/
def pickFeatAlt (prev : Option Char) (s : List Char) : Option (List Char) :=
  let startOk :=
    match prev with
    | none => true
    | some p => !isWordChar p
  if startOk then
    featAlts.findSome? (fun alt =>
      if alt.isPrefixOf s && altEndOk alt s then some alt else none)
  else none

/-- `re.sub r"\b(feat\.|feat|ft\.|ft)\b" "feat"`: boundaries are judged on
the original text, so `prev` tracks the last original character consumed. -/
def featSubGo : Nat → Option Char → List Char → List Char
  | 0, _, s => s
  | _, _, [] => []
  | fuel + 1, prev, c :: rest =>
    match pickFeatAlt prev (c :: rest) with
    | some alt =>
      ("feat").data ++ featSubGo fuel alt.getLast? ((c :: rest).drop alt.length)
    | none => c :: featSubGo fuel (some c) rest

def featSub (s : List Char) : List Char := featSubGo (s.length + 1) none s

/-- `normalize_text` of `src/debug_ytmusic_scoring.py` lines 58-90. -/
def normalize_text (s : String) : String :=
  let l1 := lowerChars s.data
  let l2 := replaceSub ("–").data (" ").data l1
  let l3 := replaceSub ("—").data (" ").data l2
  let l4 := replaceSub ("-").data (" ").data l3
  let l5 := replaceSub (":").data (" ").data l4
  let l6 := metaTokens.foldl (fun acc t => replaceSub t.data (" ").data acc) l5
  let l7 := subBracket '(' ')' bracketAlts l6
  let l8 := subBracket '[' ']' bracketAlts l7
  let l9 := featSub l8
  String.mk (stripChars (collapseWs l9))

/-- `tokens` of `src/debug_ytmusic_scoring.py` lines 93-97: normalize, split
on whitespace, keep the nonempty pieces. -/
def tokens (s : String) : List String :=
  ((splitWsRuns (normalize_text s).data).map String.mk).filter (fun p => p != "")

/-- The token filter used by `title_score` line 108:
`len(t) >= 2 and t not in {"feat"}`. -/
def tokFilter (t : String) : Bool := decide (2 ≤ t.length) && (t != "feat")

/-- Claim C4 renders the spec sentence: normalize, split on whitespace, then
drop tokens shorter than 2 characters and the literal token `feat`. This
definition follows those words; it is compared with the source `tokens`. -/
def claimed_tokenize (s : String) : List String :=
  ((splitWsRuns (normalize_text s).data).map String.mk).filter tokFilter

/-! ## Candidate scorer -/

/-- `calculate_similarity` lines 52-55, with the `SequenceMatcher.ratio`
call abstracted as `sim`. -/
def calculate_similarity (sim : String → String → ℚ) (str1 str2 : String) : ℚ :=
  sim (String.mk (stripChars (lowerChars str1.data)))
      (String.mk (stripChars (lowerChars str2.data)))

/-- `title_score` lines 100-118. -/
def title_score (sim : String → String → ℚ) (spotify_title yt_title : String) : ℚ :=
  let a := normalize_text spotify_title
  let b := normalize_text yt_title
  let s0 := calculate_similarity sim a b
  let ts := (tokens a).filter tokFilter
  let s1 :=
    if ts = [] then s0
    else
      let hits := (ts.filter (fun t => containsSub t.data b.data)).length
      max s0 (55 / 100 * s0 + 45 / 100 * ((hits : ℚ) / (ts.length : ℚ)))
  let s2 := if a ≠ "" ∧ containsSub a.data b.data = true then max s1 (85 / 100) else s1
  max 0 (min s2 1)

/-- `normalize_artists_list` lines 121-132: the `artists` payload is either
absent or a list of artist names (the dict / str element distinction of the
source collapses to the extracted name). Absent, empty, and all-empty-name
payloads all produce the empty string, as in the source. -/
def normalize_artists_list : Option (List String) → String
  | none => ""
  | some l => String.intercalate (", ") (l.filter (fun n => n ≠ ""))

/-- Descending order on the similarity component, used for `per_sorted`. -/
def pairGE (p q : String × ℚ) : Prop := q.2 ≤ p.2

instance : DecidableRel pairGE := fun p q => inferInstanceAs (Decidable (q.2 ≤ p.2))

/-- `artist_score` lines 135-162: returns (score, matched count, sorted
per-artist similarities). -/
def artist_score (sim : String → String → ℚ) (spotify_artists : List String)
    (yt_artists_text yt_title : String) : ℚ × ℕ × List (String × ℚ) :=
  let yt_blob := normalize_text yt_artists_text ++ (" ") ++ normalize_text yt_title
  let per : List (String × ℚ) := spotify_artists.map (fun a =>
    let na := normalize_text a
    let s0 := calculate_similarity sim na yt_blob
    let s1 := if na ≠ "" ∧ containsSub na.data yt_blob.data = true then max s0 (95 / 100) else s0
    (a, max 0 (min s1 1)))
  match List.insertionSort pairGE per with
  | [] => (0, 0, [])
  | p :: rest =>
    let best := p.2
    let matched := (per.filter (fun x => decide (75 / 100 ≤ x.2))).length
    let bonus : ℚ := if 2 ≤ matched then 8 / 100 else if matched = 1 then 2 / 100 else 0
    (max 0 (min (best + bonus) 1), matched, p :: rest)

/-- `parse_duration_to_seconds` lines 165-176. -/
def parse_duration_to_seconds (duration_str : String) : Option ℤ :=
  if duration_str = "" then none
  else
    match (stripChars duration_str.data).splitOn ':' with
    | [p0, p1] =>
      match pyInt p0, pyInt p1 with
      | some m, some s => some (m * 60 + s)
      | _, _ => none
    | [p0, p1, p2] =>
      match pyInt p0, pyInt p1, pyInt p2 with
      | some h, some m, some s => some (h * 3600 + m * 60 + s)
      | _, _, _ => none
    | _ => none

/-- `duration_score` lines 179-198. `if not spotify_duration_ms` is Python
falsiness: both an absent and a zero duration take the neutral branch. -/
def duration_score (spotify_duration_ms : Option ℤ) (yt_duration_str : String) : ℚ :=
  match spotify_duration_ms with
  | none => 1 / 2
  | some ms =>
    if ms = 0 then 1 / 2
    else
      match parse_duration_to_seconds yt_duration_str with
      | none => 1 / 2
      | some yt_sec =>
        let sp_sec : ℚ := max 1 ((ms : ℚ) / 1000)
        let delta := |sp_sec - (yt_sec : ℚ)|
        if delta ≤ 5 then 1
        else if delta ≤ 15 then 85 / 100
        else if delta ≤ 30 then 65 / 100
        else if delta ≤ 60 then 35 / 100
        else 0

/-- Claim C3 renders the spec sentence with delta taken directly between the
trusted duration in seconds and the parsed candidate duration, with no
flooring. This definition follows those words; it is compared with the
source `duration_score`. -/
def duration_score_claimed (spotify_duration_ms : Option ℤ) (yt_duration_str : String) : ℚ :=
  match spotify_duration_ms with
  | none => 1 / 2
  | some ms =>
    if ms = 0 then 1 / 2
    else
      match parse_duration_to_seconds yt_duration_str with
      | none => 1 / 2
      | some yt_sec =>
        let delta := |(ms : ℚ) / 1000 - (yt_sec : ℚ)|
        if delta ≤ 5 then 1
        else if delta ≤ 15 then 85 / 100
        else if delta ≤ 30 then 65 / 100
        else if delta ≤ 60 then 35 / 100
        else 0

/-- `rank_prior` lines 201-205, with `math.exp` abstracted as `rexp`. -/
def rank_prior (rexp : ℚ → ℚ) (rank : ℕ) (strength : ℚ) : ℚ :=
  let r : ℕ := max 1 rank
  rexp (-(((r : ℚ)) - 1) / max (1 / 1000000) strength)

/-- `heuristic_adjustment` lines 208-228. -/
def heuristic_adjustment (spotify_title yt_title : String) : ℚ :=
  let sp := (normalize_text spotify_title).data
  let yt := (normalize_text yt_title).data
  let liveKeys : List String := [("live"), ("现场"), ("現場")]
  let sp_live := liveKeys.any (fun k => containsSub k.data sp)
  let yt_live := liveKeys.any (fun k => containsSub k.data yt)
  let a1 : ℚ := if sp_live && yt_live then 5 / 100 else 0
  let a2 : ℚ :=
    if (containsSub ("cover").data yt || containsSub ("翻唱").data yt) &&
       (!containsSub ("cover").data sp && !containsSub ("翻唱").data sp)
    then a1 - 12 / 100 else a1
  if containsSub ("remix").data yt && !containsSub ("remix").data sp
  then a2 - 10 / 100 else a2

/-! ## Scoring a result list (`ScoredCandidate`, `score_results`) -/

/-- Raw YTMusic search entry, restricted to the fields `score_results`
reads: `videoId`, `title`, `artists`, `duration` (absent string fields are
the empty string, as produced by `res.get(..., "") or ""`). -/
structure RawResult where
  videoId : String
  title : String
  artists : Option (List String)
  duration : String
deriving DecidableEq

/-- `ScoredCandidate` dataclass, lines 231-248. -/
structure ScoredCandidate where
  idx : ℕ
  video_id : String
  title : String
  channel : String
  duration : String
  url : String
  final : ℚ
  title_s : ℚ
  artist_s : ℚ
  duration_s : ℚ
  rank_s : ℚ
  heur : ℚ
  matched_artists : ℕ
  artist_sims : List (String × ℚ)
deriving DecidableEq

/-- Scoring of one retained entry: the body of the `score_results` loop,
lines 299-331, for 1-based raw position `i`. -/
def scoreOne (sim : String → String → ℚ) (rexp : ℚ → ℚ) (spotify_name : String)
    (spotify_artists : List String) (spotify_duration_ms : Option ℤ)
    (rank_strength : ℚ) (i : ℕ) (res : RawResult) : ScoredCandidate :=
  let title := res.title
  let channel := normalize_artists_list res.artists
  let duration := res.duration
  let t_s := title_score sim spotify_name title
  let asr := artist_score sim spotify_artists channel title
  let d_s := duration_score spotify_duration_ms duration
  let r_s := rank_prior rexp i rank_strength
  let heur := heuristic_adjustment spotify_name title
  let final := clamp01 (45 / 100 * t_s + 25 / 100 * asr.1 + 20 / 100 * d_s +
    10 / 100 * r_s + heur)
  { idx := i
    video_id := res.videoId
    title := title
    channel := channel
    duration := duration
    url := ("https://music.youtube.com/watch?v=") ++ res.videoId
    final := round3 final
    title_s := round3 t_s
    artist_s := round3 asr.1
    duration_s := round3 d_s
    rank_s := round3 r_s
    heur := round3 heur
    matched_artists := asr.2.1
    artist_sims := asr.2.2.map (fun p => (p.1, round3 p.2)) }

/-- The enumerate-filter-score loop of `score_results`, lines 294-331:
entries with an empty `videoId` are skipped but still consume a rank. -/
def scoreList (sim : String → String → ℚ) (rexp : ℚ → ℚ) (spotify_name : String)
    (spotify_artists : List String) (spotify_duration_ms : Option ℤ)
    (rank_strength : ℚ) : ℕ → List RawResult → List ScoredCandidate
  | _, [] => []
  | i, r :: rs =>
    if r.videoId = "" then
      scoreList sim rexp spotify_name spotify_artists spotify_duration_ms rank_strength (i + 1) rs
    else
      scoreOne sim rexp spotify_name spotify_artists spotify_duration_ms rank_strength i r ::
        scoreList sim rexp spotify_name spotify_artists spotify_duration_ms rank_strength (i + 1) rs

/-- Descending order on the stored final score; `scored.sort(key=..., reverse=True)`
is a stable descending sort, modelled by the (stable) insertion sort. -/
def scoreGE (a b : ScoredCandidate) : Prop := b.final ≤ a.final

instance : DecidableRel scoreGE := fun a b => inferInstanceAs (Decidable (b.final ≤ a.final))

instance : IsTotal ScoredCandidate scoreGE := ⟨fun a b => le_total b.final a.final⟩

instance : IsTrans ScoredCandidate scoreGE := ⟨fun _ _ _ h1 h2 => le_trans h2 h1⟩

/-- `score_results` lines 285-334. -/
def score_results (sim : String → String → ℚ) (rexp : ℚ → ℚ)
    (results : List RawResult) (spotify_name : String) (spotify_artists : List String)
    (spotify_duration_ms : Option ℤ) (rank_strength : ℚ) : List ScoredCandidate :=
  List.insertionSort scoreGE
    (scoreList sim rexp spotify_name spotify_artists spotify_duration_ms rank_strength 1 results)

/-! ## An executable model of `difflib.SequenceMatcher.ratio`

`calculate_similarity` calls `difflib.SequenceMatcher(None, s1, s2).ratio()`.
For sequences shorter than 200 elements no junk is in play (no `isjunk`
argument is passed and autojunk only applies from length 200), so
`find_longest_match` reduces to: scanning `i` ascending then `j` ascending,
take the first block of strictly maximal length, where the block length at
`(i, j)` is the length of the maximal run of equal characters ending at
`(i, j)` and staying inside the ranges. `ratio` is `2 * M / (len a + len b)`
with `M` the total size of the recursively collected matching blocks, and
`1` when both strings are empty. -/

/-- Length of the run of equalities `a[i-t] = b[j-t]` for `t = 0, 1, ...`,
staying at or above `alo` / `blo`. Fuel `i + 1` always suffices. -/
def eqRunBack (a b : List Char) (alo blo : ℕ) : Nat → ℕ → ℕ → ℕ
  | 0, _, _ => 0
  | fuel + 1, i, j =>
    if alo ≤ i ∧ blo ≤ j ∧ a.getD i ' ' = b.getD j ' ' then
      if i = 0 ∨ j = 0 then 1
      else 1 + eqRunBack a b alo blo fuel (i - 1) (j - 1)
    else 0

structure MatchBlock where
  bi : ℕ
  bj : ℕ
  bk : ℕ

/-- `find_longest_match` on `a[alo..ahi) × b[blo..bhi)`, junk-free case. -/
def findLongestMatch (a b : List Char) (alo ahi blo bhi : ℕ) : MatchBlock :=
  let pairs := (List.range' alo (ahi - alo)).flatMap
    (fun i => (List.range' blo (bhi - blo)).map (fun j => (i, j)))
  pairs.foldl (fun best p =>
    if a.getD p.1 ' ' = b.getD p.2 ' ' then
      let k := eqRunBack a b alo blo (p.1 + 1) p.1 p.2
      if best.bk < k then ⟨p.1 + 1 - k, p.2 + 1 - k, k⟩ else best
    else best) ⟨alo, blo, 0⟩

/-- Total matched size over the recursive block decomposition of
`get_matching_blocks`. Fuel `len a + len b + 2` always suffices. -/
def matchTotal (a b : List Char) : Nat → ℕ → ℕ → ℕ → ℕ → ℕ
  | 0, _, _, _, _ => 0
  | fuel + 1, alo, ahi, blo, bhi =>
    let blk := findLongestMatch a b alo ahi blo bhi
    if blk.bk = 0 then 0
    else
      matchTotal a b fuel alo blk.bi blo blk.bj + blk.bk +
        matchTotal a b fuel (blk.bi + blk.bk) ahi (blk.bj + blk.bk) bhi

/-- `difflib.SequenceMatcher(None, s1, s2).ratio()` for short inputs. -/
def difflibSimilarity (s1 s2 : String) : ℚ :=
  let a := s1.data
  let b := s2.data
  let total := a.length + b.length
  if total = 0 then 1
  else 2 * (matchTotal a b (total + 2) 0 a.length 0 b.length : ℚ) / (total : ℚ)

/-! ## Track download orchestration (`src/backend/app.py`)

`download_and_process` (lines 115-235) is modelled by the sequence of
records it writes into `download_status[track_id]`. Messages are elided
(they carry no claim content); `status`, `stage` and `progress` are kept.
Error writes carry no `stage` key in the source, hence `stage : Option`.
The environment captures the outcome of every external call, including the
possibility that the call raises (caught by the enclosing `try`). -/

inductive JStatus
  | queued
  | processing
  | completed
  | error
deriving DecidableEq

structure JRec where
  status : JStatus
  stage : Option String
  progress : ℕ
deriving DecidableEq

inductive Location
  | localTarget
  | navidromeTarget
deriving DecidableEq

/-- Outcomes of the collaborator calls made by `download_and_process`:
each may raise (absorbed by the outer `try`), and the fallible ones may
also return a failure value. `finalizeOk` only influences the completion
message in the source, which is elided here. -/
structure TrackEnv where
  fetchRaises : Bool
  trackFound : Bool
  prepareRaises : Bool
  downloadRaises : Bool
  downloadOk : Bool
  tagRaises : Bool
  location : Location
  copyRaises : Bool
  finalizeOk : Bool
deriving DecidableEq

def errRec : JRec := ⟨JStatus.error, none, 0⟩

def queuedRec : JRec := ⟨JStatus.queued, some ("queued"), 0⟩

/-- The writes of `download_and_process` in execution order. -/
def download_and_process (env : TrackEnv) : List JRec :=
  ⟨JStatus.processing, some ("fetching"), 10⟩ ::
  (if env.fetchRaises then [errRec]
   else if !env.trackFound then [errRec]
   else
     ⟨JStatus.processing, some ("preparing"), 15⟩ ::
     (if env.prepareRaises then [errRec]
      else
        ⟨JStatus.processing, some ("downloading"), 30⟩ ::
        (if env.downloadRaises then [errRec]
         else if !env.downloadOk then [errRec]
         else
           ⟨JStatus.processing, some ("tagging"), 85⟩ ::
           (if env.tagRaises then [errRec]
            else
              match env.location with
              | Location.navidromeTarget =>
                ⟨JStatus.processing, some ("copying"), 90⟩ ::
                (if env.copyRaises then [errRec]
                 else [⟨JStatus.completed, some ("completed"), 100⟩])
              | Location.localTarget =>
                [⟨JStatus.completed, some ("completed"), 100⟩]))))

/-- A full trace observed for one submission: the `queued` record written by
the submission endpoint (line 313 or 369), then the orchestration writes. -/
def track_trace (env : TrackEnv) : List JRec :=
  queuedRec :: download_and_process env

/-- The all-success environment with a managed-library target: the happy
path exhibiting every stage of the claimed progress chain. -/
def happyEnv : TrackEnv :=
  ⟨false, true, false, false, true, false, Location.navidromeTarget, false, true⟩

/-- C5 step relation: progress may only drop on a write that is an error
reset to 0. -/
def progressStep (a b : JRec) : Prop :=
  a.progress ≤ b.progress ∨ (b.status = JStatus.error ∧ b.progress = 0)

instance : DecidableRel progressStep := fun a b =>
  inferInstanceAs (Decidable (a.progress ≤ b.progress ∨ (b.status = JStatus.error ∧ b.progress = 0)))

/-- Adjacent-pair closure of a relation along a list. -/
def ChainSat (rel : α → α → Prop) : List α → Prop
  | a :: b :: rest => rel a b ∧ ChainSat rel (b :: rest)
  | _ => True

instance instDecChainSat (rel : α → α → Prop) [DecidableRel rel] :
    ∀ l : List α, Decidable (ChainSat rel l)
  | [] => Decidable.isTrue trivial
  | [_] => Decidable.isTrue trivial
  | a :: b :: rest =>
    haveI := instDecChainSat rel (b :: rest)
    inferInstanceAs (Decidable (rel a b ∧ ChainSat rel (b :: rest)))

/-- Elementwise closure of a predicate along a list. -/
def EachSat (p : α → Prop) : List α → Prop
  | [] => True
  | x :: xs => p x ∧ EachSat p xs

instance instDecEachSat (p : α → Prop) [DecidablePred p] :
    ∀ l : List α, Decidable (EachSat p l)
  | [] => Decidable.isTrue trivial
  | x :: xs =>
    haveI := instDecEachSat p xs
    inferInstanceAs (Decidable (p x ∧ EachSat p xs))

/-! ## Album aggregation (`download_album_track`, lines 385-414)

The `except` branch of `download_album_track` is unreachable in the source:
`download_and_process` catches every exception itself, and every album-store
access in the `try` body is guarded by a membership test. The modelled step
is therefore the `try` body. A member track counts as completed exactly when
its final job status is `completed` (line 398). -/

inductive AStatus
  | downloading
  | completed
deriving DecidableEq

structure AlbumRec where
  status : AStatus
  total_tracks : ℕ
  completed_tracks : ℕ
  failed_tracks : ℕ
  current_track : Option String
deriving DecidableEq

/-- The album record as initialised by the `download_album` endpoint
(lines 356-365) for an album of `n` member tracks. -/
def initAlbum (n : ℕ) : AlbumRec :=
  ⟨AStatus.downloading, n, 0, 0, none⟩

/-- Effect of one `download_album_track` run on the album record. -/
def download_album_track (s : AlbumRec) (track_id : String)
    (trackCompleted : Bool) : AlbumRec :=
  let s1 := { s with current_track := some track_id }
  let s2 :=
    if trackCompleted then { s1 with completed_tracks := s1.completed_tracks + 1 }
    else { s1 with failed_tracks := s1.failed_tracks + 1 }
  if s2.total_tracks ≤ s2.completed_tracks + s2.failed_tracks then
    { s2 with status := AStatus.completed, current_track := none }
  else s2

/-- Album record after a sequence of member-track terminal transitions. -/
def runAlbum (n : ℕ) (outs : List (String × Bool)) : AlbumRec :=
  outs.foldl (fun s p => download_album_track s p.1 p.2) (initAlbum n)

/-! ## Ephemeral file retrieval (`download_file`, lines 457-497) -/

/-- `os.path.basename`, POSIX model: the part after the last `/`. -/
def basenameStr (s : String) : String :=
  String.mk ((s.data.reverse.takeWhile (fun c => c ≠ '/')).reverse)

/-- `os.path.dirname`, POSIX model: the part up to the last `/`, with
trailing separators stripped unless the result is all separators. -/
def dirnameStr (s : String) : String :=
  let keptRev := s.data.reverse.dropWhile (fun c => c ≠ '/')
  let head := keptRev.reverse
  if head.all (fun c => c = '/') then String.mk head
  else String.mk ((head.reverse.dropWhile (fun c => c = '/')).reverse)

/-- Stored job record as read by the endpoint: its status and optional
produced file path. -/
structure FileRec where
  status : JStatus
  file_path : Option String
deriving DecidableEq

/-- Endpoint outcome: an HTTP error classification, or the file streamed
with an optionally scheduled deletion of the given path. -/
inductive FileRes
  | httpError (code : ℕ)
  | served (path : String) (cleanup : Option String)
deriving DecidableEq

/-- `download_file` endpoint, lines 457-497. `store` is `download_status`,
`fsExists` is `os.path.exists`, `uq` is `urllib.parse.unquote`, and
`tempDirPath` is `str(Path(config.DOWNLOAD_DIR) / "temp")`. -/
def download_file (store : String → Option FileRec) (fsExists : String → Bool)
    (uq : String → String) (tempDirPath : String)
    (track_id filename : String) : FileRes :=
  match store track_id with
  | none => FileRes.httpError 404
  | some st =>
    if st.status ≠ JStatus.completed then FileRes.httpError 400
    else
      match st.file_path with
      | none => FileRes.httpError 404
      | some fp =>
        if fp = "" ∨ fsExists fp = false then FileRes.httpError 404
        else
          let decoded := uq filename
          let actual := basenameStr fp
          if actual ≠ decoded then FileRes.httpError 400
          else
            let is_temp := containsSub tempDirPath.data fp.data ||
              containsSub ("temp").data (dirnameStr fp).data
            FileRes.served fp (if is_temp then some fp else none)

/-- What triggers the deletion of a staged file once scheduled. -/
inductive CleanupTrigger
  | afterFixedDelay (seconds : ℕ)
  | afterTransferConfirmed
deriving DecidableEq

/-- `cleanup_temp_file` (lines 499-508) sleeps a fixed 2 seconds and then
removes the file; nothing observes the state of the in-flight transfer. -/
def cleanup_temp_file_trigger : CleanupTrigger :=
  CleanupTrigger.afterFixedDelay 2

/-- Concrete completed job used by the endpoint witnesses. -/
def demoStore : String → Option FileRec := fun t =>
  if t = ("t1") then some ⟨JStatus.completed, some ("/downloads/temp/song.mp3")⟩
  else none

/-- Strict interleaving order claimed for the sorted output: later candidates
have a strictly smaller final score, or an equal final score and a larger
original rank. -/
def scoreOrd (a b : ScoredCandidate) : Prop :=
  b.final < a.final ∨ (a.final = b.final ∧ a.idx < b.idx)

/-- Invariant of the album record that holds from initialisation on. -/
def albumWeakInv (s : AlbumRec) : Prop :=
  (s.status = AStatus.completed →
    s.total_tracks ≤ s.completed_tracks + s.failed_tracks) ∧
  (s.status ≠ AStatus.completed ∨ s.current_track = none)

/-- Invariant of the album record that holds after every member-track
terminal transition. -/
def albumStrongInv (s : AlbumRec) : Prop :=
  (s.status = AStatus.completed ↔
    s.total_tracks ≤ s.completed_tracks + s.failed_tracks) ∧
  (s.status ≠ AStatus.completed ∨ s.current_track = none)

/-! ## Helper lemmas -/

theorem eachSat_iff_forall (p : α → Prop) : ∀ l : List α, EachSat p l ↔ ∀ x ∈ l, p x
  | [] => by simp [EachSat]
  | x :: xs => by simp [EachSat, eachSat_iff_forall p xs]

theorem clamp01_nonneg (q : ℚ) : 0 ≤ clamp01 q := le_max_left 0 _

theorem clamp01_le_one (q : ℚ) : clamp01 q ≤ 1 :=
  max_le (by norm_num) (min_le_right q 1)

theorem roundHalfEven_nonneg {q : ℚ} (h : 0 ≤ q) : 0 ≤ roundHalfEven q := by
  have hf : (0 : ℤ) ≤ ⌊q⌋ := Int.floor_nonneg.mpr h
  unfold roundHalfEven
  dsimp only
  split_ifs <;> omega

theorem roundHalfEven_le {q : ℚ} {n : ℤ} (h : q ≤ (n : ℚ)) : roundHalfEven q ≤ n := by
  have hfn : ⌊q⌋ ≤ n := by
    have h2 := Int.floor_le_floor h
    simpa using h2
  have hfl : (⌊q⌋ : ℚ) ≤ q := Int.floor_le q
  unfold roundHalfEven
  dsimp only
  split_ifs with h1 h2 h3
  · exact hfn
  · have hhalf : (1 : ℚ) / 2 ≤ q - (⌊q⌋ : ℚ) := le_of_not_lt h1
    have hlt : (⌊q⌋ : ℚ) < (n : ℚ) := by linarith
    have : ⌊q⌋ < n := by exact_mod_cast hlt
    omega
  · exact hfn
  · have hhalf : (1 : ℚ) / 2 ≤ q - (⌊q⌋ : ℚ) := le_of_not_lt h1
    have hlt : (⌊q⌋ : ℚ) < (n : ℚ) := by linarith
    have : ⌊q⌋ < n := by exact_mod_cast hlt
    omega

theorem round3_nonneg {q : ℚ} (h : 0 ≤ q) : 0 ≤ round3 q := by
  unfold round3
  have h0 : (0 : ℤ) ≤ roundHalfEven (q * 1000) := roundHalfEven_nonneg (by positivity)
  have h0q : (0 : ℚ) ≤ ((roundHalfEven (q * 1000) : ℤ) : ℚ) := by exact_mod_cast h0
  positivity

theorem round3_le_one {q : ℚ} (h : q ≤ 1) : round3 q ≤ 1 := by
  unfold round3
  have h1 : roundHalfEven (q * 1000) ≤ (1000 : ℤ) := by
    apply roundHalfEven_le
    push_cast
    linarith
  rw [div_le_one (by norm_num)]
  exact_mod_cast h1

theorem mem_scoreList (sim : String → String → ℚ) (rexp : ℚ → ℚ)
    (name : String) (artists : List String) (ms : Option ℤ) (strength : ℚ) :
    ∀ (i : ℕ) (rs : List RawResult) (c : ScoredCandidate),
      c ∈ scoreList sim rexp name artists ms strength i rs →
      ∃ j r, c = scoreOne sim rexp name artists ms strength j r := by
  intro i rs
  induction rs generalizing i with
  | nil => intro c hc; simp [scoreList] at hc
  | cons r rs ih =>
    intro c hc
    by_cases hv : r.videoId = ""
    · rw [scoreList, if_pos hv] at hc
      exact ih (i + 1) c hc
    · rw [scoreList, if_neg hv] at hc
      rcases List.mem_cons.mp hc with h | h
      · exact ⟨i, r, h⟩
      · exact ih (i + 1) c h

theorem scoreList_idx_lb (sim : String → String → ℚ) (rexp : ℚ → ℚ)
    (name : String) (artists : List String) (ms : Option ℤ) (strength : ℚ) :
    ∀ (i : ℕ) (rs : List RawResult) (c : ScoredCandidate),
      c ∈ scoreList sim rexp name artists ms strength i rs → i ≤ c.idx := by
  intro i rs
  induction rs generalizing i with
  | nil => intro c hc; simp [scoreList] at hc
  | cons r rs ih =>
    intro c hc
    by_cases hv : r.videoId = ""
    · rw [scoreList, if_pos hv] at hc
      exact le_trans (Nat.le_succ i) (ih (i + 1) c hc)
    · rw [scoreList, if_neg hv] at hc
      rcases List.mem_cons.mp hc with h | h
      · subst h; exact le_refl i
      · exact le_trans (Nat.le_succ i) (ih (i + 1) c h)

theorem scoreList_pairwise_idx (sim : String → String → ℚ) (rexp : ℚ → ℚ)
    (name : String) (artists : List String) (ms : Option ℤ) (strength : ℚ) :
    ∀ (i : ℕ) (rs : List RawResult),
      (scoreList sim rexp name artists ms strength i rs).Pairwise
        (fun a b => a.idx < b.idx) := by
  intro i rs
  induction rs generalizing i with
  | nil => simp [scoreList]
  | cons r rs ih =>
    by_cases hv : r.videoId = ""
    · rw [scoreList, if_pos hv]
      exact ih (i + 1)
    · rw [scoreList, if_neg hv]
      refine List.Pairwise.cons ?_ (ih (i + 1))
      intro b hb
      have hlb := scoreList_idx_lb sim rexp name artists ms strength (i + 1) rs b hb
      have hidx : (scoreOne sim rexp name artists ms strength i r).idx = i := rfl
      omega

theorem scoreList_map_idx_vid (sim : String → String → ℚ) (rexp : ℚ → ℚ)
    (name : String) (artists : List String) (ms : Option ℤ) (strength : ℚ) :
    ∀ (i : ℕ) (rs : List RawResult),
      (scoreList sim rexp name artists ms strength i rs).map
          (fun c => (c.idx, c.video_id)) =
        ((List.range' i rs.length).zip rs).filterMap
          (fun p => if p.2.videoId = "" then none else some (p.1, p.2.videoId)) := by
  intro i rs
  induction rs generalizing i with
  | nil => simp [scoreList]
  | cons r rs ih =>
    rw [List.length_cons, List.range'_succ]
    by_cases hv : r.videoId = ""
    · rw [scoreList, if_pos hv]
      simp only [List.zip_cons_cons, List.filterMap_cons, if_pos hv]
      exact ih (i + 1)
    · rw [scoreList, if_neg hv]
      simp only [List.zip_cons_cons, List.filterMap_cons, if_neg hv, List.map_cons]
      exact congrArg (List.cons _) (ih (i + 1))

theorem pairwise_orderedInsert_scoreOrd (x : ScoredCandidate) :
    ∀ l : List ScoredCandidate, List.Sorted scoreGE l →
      l.Pairwise scoreOrd → (∀ y ∈ l, x.idx < y.idx) →
      (List.orderedInsert scoreGE x l).Pairwise scoreOrd := by
  intro l
  induction l with
  | nil => intro _ _ _; simp [scoreOrd]
  | cons b bs ih =>
    intro hs hp hidx
    rw [List.orderedInsert]
    by_cases hxb : scoreGE x b
    · rw [if_pos hxb]
      refine List.Pairwise.cons ?_ hp
      intro y hy
      have hyx : y.final ≤ x.final := by
        rcases List.mem_cons.mp hy with rfl | hy'
        · exact hxb
        · exact le_trans (List.rel_of_sorted_cons hs y hy') hxb
      rcases lt_or_eq_of_le hyx with hlt | heq
      · exact Or.inl hlt
      · exact Or.inr ⟨heq.symm, hidx y hy⟩
    · rw [if_neg hxb]
      have hxlt : x.final < b.final := lt_of_not_le hxb
      refine List.Pairwise.cons ?_
        (ih hs.of_cons hp.of_cons (fun y hy => hidx y (List.mem_cons_of_mem b hy)))
      intro y hy
      rcases (List.mem_orderedInsert scoreGE).mp hy with rfl | hy'
      · exact Or.inl hxlt
      · exact List.rel_of_pairwise_cons hp hy'

theorem pairwise_insertionSort_scoreOrd :
    ∀ l : List ScoredCandidate, l.Pairwise (fun a b => a.idx < b.idx) →
      (List.insertionSort scoreGE l).Pairwise scoreOrd := by
  intro l
  induction l with
  | nil => intro _; simp [scoreOrd]
  | cons x xs ih =>
    intro hp
    rw [List.insertionSort]
    apply pairwise_orderedInsert_scoreOrd
    · exact List.sorted_insertionSort scoreGE xs
    · exact ih hp.of_cons
    · intro y hy
      exact List.rel_of_pairwise_cons hp ((List.perm_insertionSort scoreGE xs).subset hy)

theorem album_step_strong (s : AlbumRec) (tid : String) (ok : Bool)
    (h : albumWeakInv s) : albumStrongInv (download_album_track s tid ok) := by
  obtain ⟨st, tot, comp, fail, cur⟩ := s
  obtain ⟨h1, h2⟩ := h
  dsimp only at h1 h2
  cases st <;> cases ok <;>
    simp only [download_album_track, albumStrongInv] <;>
    split_ifs with hle <;>
    refine ⟨?_, ?_⟩ <;>
    simp_all <;>
    omega

theorem albumStrongInv_weak {s : AlbumRec} (h : albumStrongInv s) : albumWeakInv s :=
  ⟨fun hc => h.1.mp hc, h.2⟩

theorem album_fold_weak :
    ∀ (outs : List (String × Bool)) (s : AlbumRec), albumWeakInv s →
      albumWeakInv (outs.foldl (fun s p => download_album_track s p.1 p.2) s) := by
  intro outs
  induction outs with
  | nil => intro s h; exact h
  | cons p ps ih =>
    intro s h
    exact ih _ (albumStrongInv_weak (album_step_strong s p.1 p.2 h))

/-! ## Claim theorems -/

/-- Claim C1 (amended): every candidate produced by `score_results` stores
as its final score the three-decimal (half-to-even) rounding of
`clamp(0.45*title + 0.25*artist + 0.20*duration + 0.10*rank + heuristic, 0, 1)`
recomputed from the candidate's own retained fields, and that stored final
score lies in `[0, 1]`. The claim as frozen omits the rounding; see the
counterexample. -/
theorem c1_final_formula (sim : String → String → ℚ) (rexp : ℚ → ℚ)
    (results : List RawResult) (name : String) (artists : List String)
    (ms : Option ℤ) (strength : ℚ) :
    EachSat (fun c =>
        c.final = round3 (clamp01 (45 / 100 * title_score sim name c.title +
          25 / 100 * (artist_score sim artists c.channel c.title).1 +
          20 / 100 * duration_score ms c.duration +
          10 / 100 * rank_prior rexp c.idx strength +
          heuristic_adjustment name c.title)) ∧
        0 ≤ c.final ∧ c.final ≤ 1)
      (score_results sim rexp results name artists ms strength) := by
  rw [eachSat_iff_forall]
  intro c hc
  have hc' : c ∈ scoreList sim rexp name artists ms strength 1 results :=
    (List.perm_insertionSort scoreGE _).subset hc
  obtain ⟨j, r, rfl⟩ := mem_scoreList sim rexp name artists ms strength 1 results c hc'
  refine ⟨rfl, round3_nonneg (clamp01_nonneg _), round3_le_one (clamp01_le_one _)⟩

/-- Claim C1 counterexample: with trusted title `abc`, no trusted artists,
unknown trusted duration, rank strength 6 and the single candidate
`cddd` at rank 1, the real string-similarity ratio is
`ratio("abc", "cddd") = 2*1/7 = 2/7` and `math.exp 0 = 1`, so the clamp
expression of the claim evaluates to `23/70`, while the stored final score
is its three-decimal rounding `0.329`; the two differ, refuting the claim
as frozen. -/
theorem c1_counterexample :
    (score_results difflibSimilarity (fun _ => 1)
        [⟨("v"), ("cddd"), none, ("")⟩] ("abc") [] none 6).map
      ScoredCandidate.final = [329 / 1000] ∧
    clamp01 (45 / 100 * title_score difflibSimilarity ("abc") ("cddd") +
      25 / 100 * (artist_score difflibSimilarity [] ("") ("cddd")).1 +
      20 / 100 * duration_score none ("") +
      10 / 100 * rank_prior (fun _ => 1) 1 6 +
      heuristic_adjustment ("abc") ("cddd")) = 23 / 70 ∧
    (329 / 1000 : ℚ) ≠ 23 / 70 := by
  refine ⟨by with_unfolding_all decide, by with_unfolding_all decide,
    by with_unfolding_all decide⟩

/-- Claim C2: the output of `score_results` is sorted in strictly descending
final-score order up to ties, and candidates with equal final scores appear
in the order of their original 1-based provider rank (the sort is stable). -/
theorem c2_sorted_stable (sim : String → String → ℚ) (rexp : ℚ → ℚ)
    (results : List RawResult) (name : String) (artists : List String)
    (ms : Option ℤ) (strength : ℚ) :
    (score_results sim rexp results name artists ms strength).Pairwise scoreOrd :=
  pairwise_insertionSort_scoreOrd _
    (scoreList_pairwise_idx sim rexp name artists ms strength 1 results)

/-- Claim C10: entries without a `videoId` are excluded from the scored
output, yet every retained candidate keeps as `idx` its 1-based position in
the raw input list counted including the skipped entries (the pairs
`(idx, video_id)` of the output are a permutation of the positions of the
raw entries with nonempty `videoId`), and the stored rank prior of each
retained candidate is computed from exactly that position. -/
theorem c10_rank_includes_skipped (sim : String → String → ℚ) (rexp : ℚ → ℚ)
    (results : List RawResult) (name : String) (artists : List String)
    (ms : Option ℤ) (strength : ℚ) :
    ((score_results sim rexp results name artists ms strength).map
        (fun c => (c.idx, c.video_id))).Perm
      (((List.range' 1 results.length).zip results).filterMap
        (fun p => if p.2.videoId = "" then none else some (p.1, p.2.videoId))) ∧
    EachSat (fun c => c.rank_s = round3 (rank_prior rexp c.idx strength))
      (score_results sim rexp results name artists ms strength) := by
  constructor
  · have h1 := (List.perm_insertionSort scoreGE
      (scoreList sim rexp name artists ms strength 1 results)).map
      (fun c => (c.idx, c.video_id))
    rw [scoreList_map_idx_vid sim rexp name artists ms strength 1 results] at h1
    exact h1
  · rw [eachSat_iff_forall]
    intro c hc
    have hc' : c ∈ scoreList sim rexp name artists ms strength 1 results :=
      (List.perm_insertionSort scoreGE _).subset hc
    obtain ⟨j, r, rfl⟩ := mem_scoreList sim rexp name artists ms strength 1 results c hc'
    rfl

/-- Claim C3 (amended): the duration score is the neutral 1/2 when the
trusted duration is absent or zero or the candidate duration fails to parse;
otherwise, with delta the absolute difference between `max 1 (ms/1000)`
seconds (the source floors the trusted seconds at 1) and the parsed
candidate seconds, the buckets are exact: delta ≤ 5 gives 1, 5 < delta ≤ 15
gives 0.85, 15 < delta ≤ 30 gives 0.65, 30 < delta ≤ 60 gives 0.35, and
delta > 60 gives 0. The claim as frozen takes delta against the unfloored
trusted seconds; see the counterexample. -/
theorem c3_duration_buckets (ms : ℤ) (y : String) (sec : ℤ) :
    duration_score none y = 1 / 2 ∧
    duration_score (some 0) y = 1 / 2 ∧
    (parse_duration_to_seconds y = none → duration_score (some ms) y = 1 / 2) ∧
    (parse_duration_to_seconds y = some sec → ms ≠ 0 →
      ((|max 1 ((ms : ℚ) / 1000) - (sec : ℚ)| ≤ 5 →
          duration_score (some ms) y = 1) ∧
       (5 < |max 1 ((ms : ℚ) / 1000) - (sec : ℚ)| →
          |max 1 ((ms : ℚ) / 1000) - (sec : ℚ)| ≤ 15 →
          duration_score (some ms) y = 85 / 100) ∧
       (15 < |max 1 ((ms : ℚ) / 1000) - (sec : ℚ)| →
          |max 1 ((ms : ℚ) / 1000) - (sec : ℚ)| ≤ 30 →
          duration_score (some ms) y = 65 / 100) ∧
       (30 < |max 1 ((ms : ℚ) / 1000) - (sec : ℚ)| →
          |max 1 ((ms : ℚ) / 1000) - (sec : ℚ)| ≤ 60 →
          duration_score (some ms) y = 35 / 100) ∧
       (60 < |max 1 ((ms : ℚ) / 1000) - (sec : ℚ)| →
          duration_score (some ms) y = 0))) := by
  refine ⟨rfl, by simp [duration_score], ?_, ?_⟩
  · intro hp
    simp [duration_score, hp]
  · intro hp hms
    simp only [duration_score, hp, if_neg hms]
    refine ⟨?_, ?_, ?_, ?_, ?_⟩
    · intro h1
      rw [if_pos h1]
    · intro h1 h2
      rw [if_neg (not_le.mpr h1), if_pos h2]
    · intro h1 h2
      rw [if_neg (not_le.mpr (by linarith)), if_neg (not_le.mpr h1), if_pos h2]
    · intro h1 h2
      rw [if_neg (not_le.mpr (by linarith)), if_neg (not_le.mpr (by linarith)),
        if_neg (not_le.mpr h1), if_pos h2]
    · intro h1
      rw [if_neg (not_le.mpr (by linarith)), if_neg (not_le.mpr (by linarith)),
        if_neg (not_le.mpr (by linarith)), if_neg (not_le.mpr h1)]

/-- Witness for the amended C3: the Shape-of-You durations, 233713 ms
against a candidate `3:54` (234 s), have delta 0.287 s and score 1. -/
theorem c3_duration_buckets_witness :
    parse_duration_to_seconds ("3:54") = some 234 ∧
    duration_score (some 233713) ("3:54") = 1 := by
  constructor
  · with_unfolding_all decide
  · exact ((c3_duration_buckets 233713 ("3:54") 234).2.2.2
      (by with_unfolding_all decide) (by decide)).1 (by with_unfolding_all decide)

/-- Claim C3 counterexample: for a trusted duration of 400 ms and candidate
duration `0:06`, the source floors the trusted seconds at 1, giving delta 5
and score 1, while the claim as frozen takes delta |0.4 - 6| = 5.6 and
prescribes 0.85. -/
theorem c3_counterexample :
    duration_score (some 400) ("0:06") = 1 ∧
    duration_score_claimed (some 400) ("0:06") = 85 / 100 ∧
    duration_score (some 400) ("0:06") ≠ duration_score_claimed (some 400) ("0:06") := by
  refine ⟨by with_unfolding_all decide, by with_unfolding_all decide,
    by with_unfolding_all decide⟩

/-- Claim C9: the duration score treats a trusted duration of exactly 0 ms
like an absent one (neutral 1/2), and every positive trusted duration below
1000 ms is compared exactly as if it were 1000 ms, because the trusted
seconds value is floored at 1. -/
theorem c9_zero_unknown_and_floor (ms : ℤ) (y : String) :
    duration_score none y = 1 / 2 ∧
    duration_score (some 0) y = 1 / 2 ∧
    (0 < ms → ms < 1000 → duration_score (some ms) y = duration_score (some 1000) y) := by
  refine ⟨rfl, by simp [duration_score], ?_⟩
  intro h1 h2
  have hne : ms ≠ 0 := by omega
  simp only [duration_score, if_neg hne, if_neg (by norm_num : (1000 : ℤ) ≠ 0)]
  cases hp : parse_duration_to_seconds y with
  | none => rfl
  | some sec =>
    have hle : (ms : ℚ) / 1000 ≤ 1 := by
      have hc : (ms : ℚ) ≤ 1000 := by exact_mod_cast h2.le
      linarith
    rw [max_eq_left hle]
    norm_num

/-- Witness for C9: a 500 ms trusted duration scores like a 1000 ms one. -/
theorem c9_zero_unknown_and_floor_witness :
    duration_score (some 500) ("0:03") = duration_score (some 1000) ("0:03") :=
  (c9_zero_unknown_and_floor 500 ("0:03")).2.2 (by decide) (by decide)

/-- Claim C4 (amended): the source `tokens` normalizes, splits on
whitespace, and drops only empty pieces; the dropping of tokens shorter
than 2 characters and of the literal token `feat` happens in the title
scorer's containment step, so the pipeline described by the claim equals
`tokens` followed by that filter. -/
theorem c4_tokenize_filter (s : String) :
    claimed_tokenize s = (tokens s).filter tokFilter := by
  unfold claimed_tokenize tokens
  rw [List.filter_filter]
  apply List.filter_congr
  intro x _
  by_cases hx : x = ""
  · subst hx
    decide
  · have hne : (x != "") = true := by
      simpa using hx
    rw [hne, Bool.and_true]

/-- Claim C4 counterexample: `tokens` keeps the single-character token `a`,
while the claimed pipeline drops it; the two disagree on the input `a`. -/
theorem c4_counterexample :
    tokens ("a") = [("a")] ∧ claimed_tokenize ("a") = [] ∧
    tokens ("a") ≠ claimed_tokenize ("a") := by
  refine ⟨by decide, by decide, by decide⟩

/-- Claim C5: along any execution of `download_and_process` (preceded by the
`queued` record of the submission endpoint) the progress value never
decreases except on a write of status error, every error write resets the
progress to 0, and the all-success managed-library execution passes exactly
through 0, 10, 15, 30, 85, 90, 100. -/
theorem c5_progress_monotone (env : TrackEnv) :
    ChainSat progressStep (track_trace env) ∧
    EachSat (fun w => w.status ≠ JStatus.error ∨ w.progress = 0) (track_trace env) ∧
    (track_trace happyEnv).map JRec.progress = [0, 10, 15, 30, 85, 90, 100] := by
  obtain ⟨f, t, p, d, dok, tg, loc, cp, fin⟩ := env
  cases f <;> cases t <;> cases p <;> cases d <;> cases dok <;> cases tg <;>
    cases loc <;> cases cp <;> cases fin <;> decide

/-- Claim C6: after each member track of an album reaches a terminal state,
the album record is `completed` exactly when completed + failed has reached
the total, and `current_track` is cleared whenever the album is completed. -/
theorem c6_album_completion (n : ℕ) (outs : List (String × Bool))
    (tid : String) (ok : Bool) :
    ((runAlbum n (outs ++ [(tid, ok)])).status = AStatus.completed ↔
      (runAlbum n (outs ++ [(tid, ok)])).total_tracks ≤
        (runAlbum n (outs ++ [(tid, ok)])).completed_tracks +
          (runAlbum n (outs ++ [(tid, ok)])).failed_tracks) ∧
    ((runAlbum n (outs ++ [(tid, ok)])).status ≠ AStatus.completed ∨
      (runAlbum n (outs ++ [(tid, ok)])).current_track = none) := by
  have h0 : albumWeakInv (initAlbum n) := by
    constructor
    · intro h; simp [initAlbum] at h
    · exact Or.inl (by simp [initAlbum])
  have hfold := album_fold_weak outs (initAlbum n) h0
  have hstep := album_step_strong
    (outs.foldl (fun s p => download_album_track s p.1 p.2) (initAlbum n)) tid ok hfold
  have hrw : runAlbum n (outs ++ [(tid, ok)]) =
      download_album_track
        (outs.foldl (fun s p => download_album_track s p.1 p.2) (initAlbum n)) tid ok := by
    simp [runAlbum, List.foldl_append]
  rw [hrw]
  exact hstep

/-- Claim C7: the file-retrieval endpoint returns not-found when the job is
unknown, when the produced path is absent, or when the file is missing on
disk; bad-request when the job is not completed; and bad-request — with the
file neither streamed nor any deletion scheduled — when the supplied
filename does not match the produced filename. -/
theorem c7_download_file_contract (store : String → Option FileRec)
    (fsExists : String → Bool) (uq : String → String)
    (tempDirPath tid fn : String) :
    (store tid = none →
      download_file store fsExists uq tempDirPath tid fn = FileRes.httpError 404) ∧
    (∀ st, store tid = some st → st.status ≠ JStatus.completed →
      download_file store fsExists uq tempDirPath tid fn = FileRes.httpError 400) ∧
    (∀ st, store tid = some st → st.status = JStatus.completed →
      st.file_path = none →
      download_file store fsExists uq tempDirPath tid fn = FileRes.httpError 404) ∧
    (∀ st fp, store tid = some st → st.status = JStatus.completed →
      st.file_path = some fp → (fp = "" ∨ fsExists fp = false) →
      download_file store fsExists uq tempDirPath tid fn = FileRes.httpError 404) ∧
    (∀ st fp, store tid = some st → st.status = JStatus.completed →
      st.file_path = some fp → fp ≠ "" → fsExists fp = true →
      basenameStr fp ≠ uq fn →
      download_file store fsExists uq tempDirPath tid fn = FileRes.httpError 400) := by
  refine ⟨?_, ?_, ?_, ?_, ?_⟩
  · intro h
    simp [download_file, h]
  · intro st hst hstatus
    simp [download_file, hst, hstatus]
  · intro st hst hstatus hfp
    simp [download_file, hst, hstatus, hfp]
  · intro st fp hst hstatus hfp hmiss
    simp [download_file, hst, hstatus, hfp, hmiss]
  · intro st fp hst hstatus hfp hne hex hbn
    simp [download_file, hst, hstatus, hfp, hne, hex, hbn]

/-- Witness for C7: a completed job whose produced file is
`/downloads/temp/song.mp3`, queried with the non-matching filename
`other.mp3`, is answered with the bad-request classification. -/
theorem c7_download_file_contract_witness :
    basenameStr ("/downloads/temp/song.mp3") ≠ ("other.mp3") ∧
    download_file demoStore (fun _ => true) (fun s => s)
      ("/downloads/temp") ("t1") ("other.mp3") = FileRes.httpError 400 := by
  refine ⟨by decide, ?_⟩
  exact (c7_download_file_contract demoStore (fun _ => true) (fun s => s)
      ("/downloads/temp") ("t1") ("other.mp3")).2.2.2.2
    ⟨JStatus.completed, some ("/downloads/temp/song.mp3")⟩
    ("/downloads/temp/song.mp3") (by decide) rfl rfl (by decide) rfl (by decide)

/-- Claim C8 is a code bug: serving a completed temp file schedules
`cleanup_temp_file`, whose deletion trigger in the source is a fixed
2-second delay (`time.sleep(2)` then `os.remove`), not a confirmation that
the retrieval transfer finished. -/
theorem c8_fixed_delay_cleanup :
    download_file demoStore (fun _ => true) (fun s => s)
      ("/downloads/temp") ("t1") ("song.mp3") =
      FileRes.served ("/downloads/temp/song.mp3") (some ("/downloads/temp/song.mp3")) ∧
    cleanup_temp_file_trigger = CleanupTrigger.afterFixedDelay 2 ∧
    cleanup_temp_file_trigger ≠ CleanupTrigger.afterTransferConfirmed := by
  refine ⟨by decide, rfl, by decide⟩

end MusicDL

